import Mathlib

/-!
Verification of the HAZE client libraries' shared core: the canonical
transaction-payload encoders (TypeScript SDK, C# Unity SDK, Unreal plugin),
the hex wire codec, the little-endian u64 encoder, address derivation, and
the constant-product AMM arithmetic (`FogEconomy`).

Bytes are modelled as `List Nat` (each element a value in `[0, 255]` by
construction of the operations).  TypeScript `bigint` values are modelled as
`Int`; TypeScript `bigint` division truncates toward zero, which is exactly
`Int.tdiv`.  C# `ulong` fields that the sources carry as decimal strings and
read back with `ulong.Parse` are modelled directly by the parsed `Nat` value.
Fallible operations (a TypeScript `throw`, a C# exception) are modelled with
`Option`, `none` marking the reported error.
-/

set_option maxRecDepth 40000

/-- The eight little-endian bytes of `v` (low byte first).  This is the
unrolled body of the 8-iteration loop `out[i] = v & 255; v >>= 8` shared by
the TypeScript `u64le` (sdk `crypto.ts`) and the C# `TransactionSigning.U64LE`. -/
def u64leBytes (v : Nat) : List Nat :=
  [v % 256, v / 256 % 256, v / 65536 % 256, v / 16777216 % 256,
   v / 4294967296 % 256, v / 1099511627776 % 256,
   v / 281474976710656 % 256, v / 72057594037927936 % 256]

/-- Value of a byte list read as a little-endian integer (low byte first). -/
def leValue (bs : List Nat) : Nat :=
  bs.foldr (fun b acc => b + 256 * acc) 0

/-- UTF-8 encoding of a single character (RFC 3629), the byte sequence
produced for it by `TextEncoder` (TypeScript) and `Encoding.UTF8` (C#). -/
def utf8EncodeCharNat (c : Char) : List Nat :=
  let n := c.toNat
  if n < 128 then [n]
  else if n < 2048 then [192 + n / 64, 128 + n % 64]
  else if n < 65536 then [224 + n / 4096, 128 + n / 64 % 64, 128 + n % 64]
  else [240 + n / 262144, 128 + n / 4096 % 64, 128 + n / 64 % 64, 128 + n % 64]

/-- UTF-8 bytes of a string (for the ASCII tags and method names used by the
encoders this is simply the character codes). -/
def utf8Bytes (s : String) : List Nat :=
  s.data.flatMap utf8EncodeCharNat

/-- Numeric value of a hexadecimal digit, `none` for a non-hex character.
Shared by the models of `Convert.ToByte(_, 16)` (C#), Node's hex decoding
(TypeScript `Buffer.from(hex, 'hex')`), and — through `fparseHexDigit`,
which collapses the failure to the digit 0 — Unreal's `FParse::HexDigit`. -/
def hexDigitVal (c : Char) : Option Nat :=
  if '0' ≤ c ∧ c ≤ '9' then some (c.toNat - '0'.toNat)
  else if 'a' ≤ c ∧ c ≤ 'f' then some (c.toNat - 'a'.toNat + 10)
  else if 'A' ≤ c ∧ c ≤ 'F' then some (c.toNat - 'A'.toNat + 10)
  else none

/-- Pairwise hex decoding that fails (`none`, modelling a thrown exception)
on any invalid digit or on a leftover odd character.  Body of the C#
`Utils.HexToBytes` / `TransactionSigning.HexToBytes` loop, whose
`Convert.ToByte(hex.Substring(i * 2, 2), 16)` throws on a non-hex pair. -/
def csHexPairs : List Char → Option (List Nat)
  | [] => some []
  | [_] => none
  | c1 :: c2 :: rest =>
    match hexDigitVal c1, hexDigitVal c2 with
    | some hi, some lo => (csHexPairs rest).map fun bs => (16 * hi + lo) :: bs
    | _, _ => none

/-- C# `Utils.HexToBytes` (unity `Utils.cs`) and the identical private
`TransactionSigning.HexToBytes` (part_009): odd length throws
(`ArgumentException`), then each two-character pair is converted with
`Convert.ToByte(_, 16)`, which throws on non-hex characters.  `none` models
the thrown exception. -/
def csHexToBytes (hex : String) : Option (List Nat) :=
  if hex.length % 2 ≠ 0 then none else csHexPairs hex.data

/-- Pairwise hex decoding with Node `Buffer.from(hex, 'hex')` semantics
(the TypeScript SDK's `hexToBytes` delegates to it): decoding stops at the
first invalid pair and returns the bytes accumulated so far; a trailing odd
character is ignored.  It never throws. -/
def tsHexPairs : List Char → List Nat
  | c1 :: c2 :: rest =>
    (match hexDigitVal c1, hexDigitVal c2 with
     | some hi, some lo => (16 * hi + lo) :: tsHexPairs rest
     | _, _ => [])
  | _ => []

/-- TypeScript `hexToBytes` (sdk `utils.ts`):
`new Uint8Array(Buffer.from(hex, 'hex'))`.  Modelled from the documented
Node.js `Buffer.from` hex semantics, since the source performs no checks of
its own: silent truncation, never an error. -/
def tsHexToBytes (hex : String) : List Nat :=
  tsHexPairs hex.data

/-- Whitespace as trimmed by Unreal's `TrimStartAndEnd`. -/
def isTrimmedWhitespace (c : Char) : Bool :=
  c == ' ' || c == '\t' || c == '\n' || c == '\r'

/-- The string cleanup in `FTransactionBuilder::HexToBytes`:
`Hex.TrimStartAndEnd().Replace(TEXT(" "), TEXT(""))`. -/
def unrealClean (s : String) : List Char :=
  (((s.data.dropWhile isTrimmedWhitespace).reverse.dropWhile
      isTrimmedWhitespace).reverse).filter (fun c => c != ' ')

/-- Unreal `FParse::HexDigit`: the engine returns the value of a hex digit
and 0 for any other character — never a negative value.  Consequently the
`if (A < 0 || B < 0) return TArray<uint8>();` early-return in
`FTransactionBuilder::HexToBytes` (and the matching check pattern in the
Merge decode of `FTransactionSigning::BuildMistbornAssetPayload`) is dead
code: a non-hex character simply contributes the nibble 0. -/
def fparseHexDigit (c : Char) : Nat :=
  (hexDigitVal c).getD 0

/-- The decoding loop of `FTransactionBuilder::HexToBytes`: the output is
pre-sized to `H.Len() / 2` (a trailing odd character is silently dropped),
and each character pair becomes `(HexDigit A << 4) | HexDigit B`, with a
non-hex character decoded as the nibble 0 because `FParse::HexDigit` never
reports failure. -/
def unrealHexPairs : List Char → List Nat
  | c1 :: c2 :: rest =>
    (16 * fparseHexDigit c1 + fparseHexDigit c2) :: unrealHexPairs rest
  | _ => []

/-- Unreal `FTransactionBuilder::HexToBytes` (`TransactionBuilder.cpp`):
never reports an error — it drops a trailing odd character and decodes any
non-hex digit as 0 (e.g. `"0z"` becomes the single byte `0x00`). -/
def unrealHexToBytes (hex : String) : List Nat :=
  unrealHexPairs (unrealClean hex)

/-- Asset actions (sdk `types.ts`, unity `Types.cs`). -/
inductive AssetAction where
  | Create
  | Update
  | Condense
  | Evaporate
  | Merge
  | Split
deriving DecidableEq, Repr

/-- Density levels (sdk `types.ts`, unity `Types.cs`). -/
inductive DensityLevel where
  | Ethereal
  | Light
  | Dense
  | Core
deriving DecidableEq, Repr

/-- TypeScript `actionToByte` (sdk `crypto.ts`), identical to the C# enum
numeric values `Create = 0 … Split = 5` (unity `Types.cs`). -/
def actionToByte : AssetAction → Nat
  | .Create => 0
  | .Update => 1
  | .Condense => 2
  | .Evaporate => 3
  | .Merge => 4
  | .Split => 5

/-- TypeScript `densityToByte` (sdk `crypto.ts`), identical to the C# enum
numeric values `Ethereal = 0 … Core = 3` (unity `Types.cs`). -/
def densityToByte : DensityLevel → Nat
  | .Ethereal => 0
  | .Light => 1
  | .Dense => 2
  | .Core => 3

/-- The number of UTF-16 code units of one character (one `TCHAR` for BMP
code points, a surrogate pair for supplementary ones). -/
def utf16Units (c : Char) : Nat :=
  if c.toNat < 65536 then 1 else 2

/-- `FString::Len()`: the UTF-16 code-unit count of a string. -/
def utf16Len (s : String) : Nat :=
  (s.data.map utf16Units).sum

/-- The guarded 32-byte append pattern of the Unreal payload builders:
`if (Bytes.Num() >= 32) Data.Append(Bytes.GetData(), 32)` — the first 32
bytes when at least 32 are supplied, nothing otherwise. -/
def appendIfLen32 (xs : List Nat) : List Nat :=
  if 32 ≤ xs.length then xs.take 32 else []

/-- Unreal `FTransactionSigning::BuildMistbornAssetPayload`
(`HazeClient.cpp` lines 243–295): tag, from, action byte, asset id, owner,
density byte; for Merge, when `_other_asset_id` is present with
`Len() >= 64`, the 32 bytes decoded from its first 64 characters
(`FParse::HexDigit`, nibble 0 for a non-hex character); for Split, when
`_components` is present, the first `Len()` bytes of its UTF-8 conversion
(`TCHAR_TO_UTF8` with `Components->Len()` as the byte count); then fee,
nonce, and the optional chain fields, eight little-endian bytes each.
`FString` is modelled as a Lean `String` with `Len()` as `utf16Len`;
character positions in the Merge decode coincide with `TCHAR` indices for
strings without supplementary-plane characters, which covers the hex ids
this field carries. -/
def unrealBuildMistbornAssetPayload (fromAddress : List Nat)
    (action : AssetAction) (assetId dataOwner : List Nat)
    (density : DensityLevel) (fee nonce : Nat)
    (metadataMergeSplit : List (String × String))
    (chainId validUntilHeight : Option Nat) : List Nat :=
  utf8Bytes "MistbornAsset" ++
  appendIfLen32 fromAddress ++
  [actionToByte action] ++
  appendIfLen32 assetId ++
  appendIfLen32 dataOwner ++
  [densityToByte density] ++
  (if action = AssetAction.Merge then
    match metadataMergeSplit.lookup "_other_asset_id" with
    | some otherId =>
      if 64 ≤ utf16Len otherId then unrealHexPairs (otherId.data.take 64)
      else []
    | none => []
  else []) ++
  (if action = AssetAction.Split then
    match metadataMergeSplit.lookup "_components" with
    | some components => (utf8Bytes components).take (utf16Len components)
    | none => []
  else []) ++
  u64leBytes fee ++ u64leBytes nonce ++
  (match chainId with
   | some c => u64leBytes c
   | none => []) ++
  (match validUntilHeight with
   | some v => u64leBytes v
   | none => [])

/-- NFT attribute (sdk `types.ts`). -/
structure TsAttribute where
  name : String
  value : String
  rarity : Option Nat
deriving DecidableEq, Repr

/-- Asset data (sdk `types.ts`); the string-keyed metadata record is
modelled as an association list. -/
structure TsAssetData where
  density : DensityLevel
  metadata : List (String × String)
  attributes : List TsAttribute
  game_id : Option String
  owner : List Nat
deriving DecidableEq, Repr

/-- The closed transaction union of the TypeScript SDK (sdk `types.ts`):
Transfer, MistbornAsset, ContractCall, Stake, with exactly the fields the
source interfaces declare. -/
inductive TsTransaction where
  | transfer («from» «to» : List Nat) (amount fee : Int) (nonce : Int)
      (signature : List Nat)
  | mistbornAsset (action : AssetAction) (asset_id : List Nat)
      (data : TsAssetData) (signature : List Nat)
  | contractCall (contract : List Nat) (method : String) (args : List Nat)
      (gas_limit : Int) (signature : List Nat)
  | stake (validator : List Nat) (amount : Int) (signature : List Nat)
deriving DecidableEq, Repr

/-- TypeScript `u64le` (sdk `crypto.ts`): throws (`none`) outside
`[0, 2^64 - 1]`, otherwise the eight little-endian bytes. -/
def u64le (value : Int) : Option (List Nat) :=
  if value < 0 ∨ value > 18446744073709551615 then none
  else some (u64leBytes value.toNat)

/-- TypeScript `getTransactionDataForSigning` (sdk `crypto.ts`, part_001
lines 322–363), case for case.  `none` models a thrown `u64le` range error. -/
def tsGetTransactionDataForSigning (tx : TsTransaction) : Option (List Nat) :=
  match tx with
  | .transfer f t amount fee nonce _sig => do
    let a ← u64le amount
    let fe ← u64le fee
    let n ← u64le nonce
    pure (utf8Bytes "Transfer" ++ f ++ t ++ a ++ fe ++ n)
  | .mistbornAsset action asset_id data _sig =>
    some (utf8Bytes "MistbornAsset" ++ [actionToByte action] ++ asset_id ++
      data.owner ++ [densityToByte data.density])
  | .contractCall contract method args gas_limit _sig => do
    let g ← u64le gas_limit
    pure (utf8Bytes "ContractCall" ++ contract ++ utf8Bytes method ++ [0] ++
      g ++ args)
  | .stake validator amount _sig => do
    let a ← u64le amount
    pure (utf8Bytes "Stake" ++ validator ++ a)

/-- C# transfer transaction (unity `Types.cs`): `amount`/`fee` are decimal
strings read back with `ulong.Parse`, modelled by the parsed value. -/
structure CsTransferTransaction where
  «from» : List Nat
  «to» : List Nat
  amount : Nat
  fee : Nat
  nonce : Nat
  chain_id : Option Nat
  valid_until_height : Option Nat
  signature : String
deriving DecidableEq, Repr

/-- C# stake transaction (unity `Types.cs`). -/
structure CsStakeTransaction where
  «from» : List Nat
  validator : List Nat
  amount : Nat
  fee : Nat
  nonce : Nat
  chain_id : Option Nat
  valid_until_height : Option Nat
  signature : String
deriving DecidableEq, Repr

/-- C# NFT attribute (unity `Types.cs`). -/
structure CsAttribute where
  name : String
  value : String
  rarity : Option Nat
deriving DecidableEq, Repr

/-- C# asset data (unity `Types.cs`); the metadata dictionary is modelled as
an association list queried with `List.lookup`. -/
structure CsAssetData where
  density : DensityLevel
  metadata : List (String × String)
  attributes : List CsAttribute
  game_id : Option String
  owner : List Nat
deriving DecidableEq, Repr

/-- C# Mistborn asset transaction (unity `Types.cs`). -/
structure CsMistbornAssetTransaction where
  «from» : List Nat
  action : AssetAction
  asset_id : List Nat
  data : CsAssetData
  fee : Nat
  nonce : Nat
  chain_id : Option Nat
  valid_until_height : Option Nat
  signature : String
deriving DecidableEq, Repr

/-- C# `TransactionSigning.ConcatBytes`: sequential `Buffer.BlockCopy` of
the parts into one array. -/
def csConcatBytes (parts : List (List Nat)) : List Nat :=
  parts.foldl (fun acc p => acc ++ p) []

/-- C# `TransactionSigning.AppendChainFields`: chain id then
valid-until-height, each eight little-endian bytes, each omitted when unset. -/
def csChainFields (chainId validUntilHeight : Option Nat) : List (List Nat) :=
  (match chainId with
   | some c => [u64leBytes c]
   | none => []) ++
  (match validUntilHeight with
   | some v => [u64leBytes v]
   | none => [])

/-- C# `TransactionSigning.GetTransactionDataForSigning(TransferTransaction)`
(part_009 lines 18–29). -/
def csTransferSigningData (tx : CsTransferTransaction) : List Nat :=
  csConcatBytes
    ([utf8Bytes "Transfer", tx.«from», tx.«to», u64leBytes tx.amount,
      u64leBytes tx.fee, u64leBytes tx.nonce] ++
     csChainFields tx.chain_id tx.valid_until_height)

/-- C# `TransactionSigning.GetTransactionDataForSigning(StakeTransaction)`
(part_009 lines 34–45). -/
def csStakeSigningData (tx : CsStakeTransaction) : List Nat :=
  csConcatBytes
    ([utf8Bytes "Stake", tx.«from», tx.validator, u64leBytes tx.amount,
      u64leBytes tx.fee, u64leBytes tx.nonce] ++
     csChainFields tx.chain_id tx.valid_until_height)

/-- The Merge-specific extra part of the C# MistbornAsset payload: when the
action is Merge and `_other_asset_id` is present, its hex form is decoded
(`HexToBytes` may throw, hence `Option`) and appended only when it is exactly
32 bytes. -/
def csMergeExtra (tx : CsMistbornAssetTransaction) : Option (List (List Nat)) :=
  if tx.action = AssetAction.Merge then
    match tx.data.metadata.lookup "_other_asset_id" with
    | some otherIdHex =>
      match csHexToBytes otherIdHex with
      | some otherBytes =>
        some (if otherBytes.length = 32 then [otherBytes] else [])
      | none => none
    | none => some []
  else some []

/-- The Split-specific extra part of the C# MistbornAsset payload: when the
action is Split and `_components` is present, its UTF-8 bytes are appended. -/
def csSplitExtra (tx : CsMistbornAssetTransaction) : List (List Nat) :=
  if tx.action = AssetAction.Split then
    match tx.data.metadata.lookup "_components" with
    | some componentsStr => [utf8Bytes componentsStr]
    | none => []
  else []

/-- C# `TransactionSigning.GetTransactionDataForSigning(MistbornAssetTransaction)`
(part_009 lines 50–85): tag, from, action byte, asset id, owner, density
byte, the Merge/Split extras, fee, nonce, chain fields.  `none` models the
`HexToBytes` exception on a malformed `_other_asset_id`. -/
def csMistbornSigningData (tx : CsMistbornAssetTransaction) : Option (List Nat) :=
  (csMergeExtra tx).map fun mergePart =>
    csConcatBytes
      ([utf8Bytes "MistbornAsset", tx.«from», [actionToByte tx.action],
        tx.asset_id, tx.data.owner, [densityToByte tx.data.density]] ++
       mergePart ++ csSplitExtra tx ++
       [u64leBytes tx.fee, u64leBytes tx.nonce] ++
       csChainFields tx.chain_id tx.valid_until_height)

/-- The Transfer payload as the claim's words describe it: literal ASCII
tag, raw from and to bytes, amount, fee and nonce as eight little-endian
bytes each, then chain id and valid-until-height, each eight little-endian
bytes and omitted entirely when unset. -/
def specTransferPayload (tx : CsTransferTransaction) : List Nat :=
  utf8Bytes "Transfer" ++ tx.«from» ++ tx.«to» ++ u64leBytes tx.amount ++
    u64leBytes tx.fee ++ u64leBytes tx.nonce ++
    (match tx.chain_id with
     | some c => u64leBytes c
     | none => []) ++
    (match tx.valid_until_height with
     | some v => u64leBytes v
     | none => [])

/-- The ContractCall payload as the claim's words describe it: after the
variant tag and the contract address come the method-name bytes, a single
null terminator, then immediately the raw argument bytes. -/
def claimContractCallPayload (contract : List Nat) (method : String)
    (args : List Nat) : List Nat :=
  utf8Bytes "ContractCall" ++ contract ++ utf8Bytes method ++ [0] ++ args

/-- Liquidity pool snapshot (sdk `types.ts`). -/
structure LiquidityPool where
  pool_id : String
  asset1 : String
  asset2 : String
  reserve1 : Int
  reserve2 : Int
  fee_rate : Int
  total_liquidity : Int
deriving DecidableEq, Repr

/-- `FogEconomy.calculateSwapAmount` (sdk `economy.ts` lines 55–81).
TypeScript `bigint` division truncates toward zero: `Int.tdiv`. -/
def calculateSwapAmount (pool : LiquidityPool) (inputAmount : Int)
    (isAsset1Input : Bool) : Int :=
  let k := pool.reserve1 * pool.reserve2
  if isAsset1Input then
    let newReserve1 := pool.reserve1 + inputAmount
    let newReserve2 := Int.tdiv k newReserve1
    let outputAmount := pool.reserve2 - newReserve2
    let fee := Int.tdiv (outputAmount * pool.fee_rate) 10000
    outputAmount - fee
  else
    let newReserve2 := pool.reserve2 + inputAmount
    let newReserve1 := Int.tdiv k newReserve2
    let outputAmount := pool.reserve1 - newReserve1
    let fee := Int.tdiv (outputAmount * pool.fee_rate) 10000
    outputAmount - fee

/-- The swap quote as the claim's words describe it: `newReserveA =
oldReserveA + input`, `rawOutput = oldReserveB - floor(k / newReserveA)`,
`fee = floor(rawOutput * feeRateBps / 10000)`, `finalOutput = rawOutput -
fee`, with `floor` the mathematical floor division (`Int.fdiv`). -/
def specSwapFloor (pool : LiquidityPool) (inputAmount : Int)
    (isAsset1Input : Bool) : Int :=
  let k := pool.reserve1 * pool.reserve2
  if isAsset1Input then
    let rawOutput := pool.reserve2 - Int.fdiv k (pool.reserve1 + inputAmount)
    rawOutput - Int.fdiv (rawOutput * pool.fee_rate) 10000
  else
    let rawOutput := pool.reserve1 - Int.fdiv k (pool.reserve2 + inputAmount)
    rawOutput - Int.fdiv (rawOutput * pool.fee_rate) 10000

/-- The body of the `while (y < x)` loop in `FogEconomy.geometricMean`
(sdk `economy.ts` lines 107–117), embedded step-indexed: one fuel unit per
iteration, `none` meaning the loop is still running after `fuel` steps.
The loop is in fact terminating (proved below), so every sufficiently large
fuel returns the loop's value. -/
def gmAux (product : Int) : Nat → Int → Int → Option Int
  | 0, _, _ => none
  | fuel + 1, x, y =>
    if y < x then gmAux product fuel y (Int.tdiv (y + Int.tdiv product y) 2)
    else some x

/-- `FogEconomy.geometricMean`: `x = a * b`, `y = (x + 1) / 2`, then the
Newton iteration. -/
def geometricMean (a b : Int) (fuel : Nat) : Option Int :=
  let product := a * b
  gmAux product fuel product (Int.tdiv (product + 1) 2)

/-- `FogEconomy.calculateLiquidityShares` (sdk `economy.ts` lines 86–102). -/
def calculateLiquidityShares (fuel : Nat) (pool : LiquidityPool)
    (reserve1Amount reserve2Amount : Int) : Option Int :=
  if pool.total_liquidity = 0 then
    geometricMean reserve1Amount reserve2Amount fuel
  else
    let share1 := Int.tdiv (reserve1Amount * pool.total_liquidity) pool.reserve1
    let share2 := Int.tdiv (reserve2Amount * pool.total_liquidity) pool.reserve2
    some (if share1 < share2 then share1 else share2)

/-- The example pool of the spec's testable properties: reserves
10000/20000, fee 30 bps, empty (zero total liquidity). -/
def examplePool : LiquidityPool :=
  ⟨"pool", "asset1", "asset2", 10000, 20000, 30, 0⟩

/-- Nat mirror of `gmAux`, used to carry the correctness argument (all
reachable loop states are non-negative). -/
def gmAuxN (p : Nat) : Nat → Nat → Nat → Option Nat
  | 0, _, _ => none
  | fuel + 1, x, y =>
    if y < x then gmAuxN p fuel y ((y + p / y) / 2)
    else some x

/-- The SHA-256 round constants (FIPS 180-4 §4.2.2). -/
def sha256K : List Nat :=
  [1116352408, 1899447441, 3049323471, 3921009573, 961987163, 1508970993,
   2453635748, 2870763221, 3624381080, 310598401, 607225278, 1426881987,
   1925078388, 2162078206, 2614888103, 3248222580, 3835390401, 4022224774,
   264347078, 604807628, 770255983, 1249150122, 1555081692, 1996064986,
   2554220882, 2821834349, 2952996808, 3210313671, 3336571891, 3584528711,
   113926993, 338241895, 666307205, 773529912, 1294757372, 1396182291,
   1695183700, 1986661051, 2177026350, 2456956037, 2730485921, 2820302411,
   3259730800, 3345764771, 3516065817, 3600352804, 4094571909, 275423344,
   430227734, 506948616, 659060556, 883997877, 958139571, 1322822218,
   1537002063, 1747873779, 1955562222, 2024104815, 2227730452, 2361852424,
   2428436474, 2756734187, 3204031479, 3329325298]

/-- Addition modulo 2^32. -/
def add32 (a b : Nat) : Nat := (a + b) % 4294967296

/-- Right rotation of a 32-bit word. -/
def rotr32 (n x : Nat) : Nat := (x >>> n) ||| ((x <<< (32 - n)) % 4294967296)

/-- Bitwise complement of a 32-bit word. -/
def not32 (x : Nat) : Nat := 4294967295 - x

/-- SHA-256 `Ch` function. -/
def sha256Ch (e f g : Nat) : Nat := (e &&& f) ^^^ (not32 e &&& g)

/-- SHA-256 `Maj` function. -/
def sha256Maj (a b c : Nat) : Nat := (a &&& b) ^^^ (a &&& c) ^^^ (b &&& c)

/-- SHA-256 `Σ0`. -/
def bigSigma0 (x : Nat) : Nat := rotr32 2 x ^^^ rotr32 13 x ^^^ rotr32 22 x

/-- SHA-256 `Σ1`. -/
def bigSigma1 (x : Nat) : Nat := rotr32 6 x ^^^ rotr32 11 x ^^^ rotr32 25 x

/-- SHA-256 `σ0`. -/
def smallSigma0 (x : Nat) : Nat := rotr32 7 x ^^^ rotr32 18 x ^^^ (x >>> 3)

/-- SHA-256 `σ1`. -/
def smallSigma1 (x : Nat) : Nat := rotr32 17 x ^^^ rotr32 19 x ^^^ (x >>> 10)

/-- Big-endian 32-bit words from a byte list (groups of four bytes). -/
def wordsBE : List Nat → List Nat
  | b0 :: b1 :: b2 :: b3 :: rest =>
    (b0 * 16777216 + b1 * 65536 + b2 * 256 + b3) :: wordsBE rest
  | _ => []

/-- Big-endian bytes of a 32-bit word. -/
def wordToBytesBE (w : Nat) : List Nat :=
  [w / 16777216 % 256, w / 65536 % 256, w / 256 % 256, w % 256]

/-- Extend the 16-word message schedule to 64 words. -/
def sha256Extend : Array Nat → Nat → Array Nat
  | w, 0 => w
  | w, n + 1 =>
    let t := add32 (add32 (smallSigma1 (w.getD (w.size - 2) 0))
                          (w.getD (w.size - 7) 0))
                   (add32 (smallSigma0 (w.getD (w.size - 15) 0))
                          (w.getD (w.size - 16) 0))
    sha256Extend (w.push t) n

/-- SHA-256 working state. -/
structure Sha256State where
  a : Nat
  b : Nat
  c : Nat
  d : Nat
  e : Nat
  f : Nat
  g : Nat
  h : Nat
deriving DecidableEq, Repr

/-- One SHA-256 round, with `kw` the sum input `K[i] + W[i]` pair. -/
def sha256Round (s : Sha256State) (ki wi : Nat) : Sha256State :=
  let t1 := add32 (add32 (add32 (add32 s.h (bigSigma1 s.e)) (sha256Ch s.e s.f s.g)) ki) wi
  let t2 := add32 (bigSigma0 s.a) (sha256Maj s.a s.b s.c)
  ⟨add32 t1 t2, s.a, s.b, s.c, add32 s.d t1, s.e, s.f, s.g⟩

/-- Compress a single 64-byte block into the chaining state. -/
def sha256Compress (st : List Nat) (block : List Nat) : List Nat :=
  let w := sha256Extend (Array.mk (wordsBE block)) 48
  let init : Sha256State :=
    ⟨st.getD 0 0, st.getD 1 0, st.getD 2 0, st.getD 3 0,
     st.getD 4 0, st.getD 5 0, st.getD 6 0, st.getD 7 0⟩
  let fin := (List.zip sha256K w.toList).foldl
    (fun s kw => sha256Round s kw.1 kw.2) init
  [add32 (st.getD 0 0) fin.a, add32 (st.getD 1 0) fin.b,
   add32 (st.getD 2 0) fin.c, add32 (st.getD 3 0) fin.d,
   add32 (st.getD 4 0) fin.e, add32 (st.getD 5 0) fin.f,
   add32 (st.getD 6 0) fin.g, add32 (st.getD 7 0) fin.h]

/-- SHA-256 padding: `128`, zeros to 56 mod 64, then the bit length as
eight big-endian bytes. -/
def sha256Pad (msg : List Nat) : List Nat :=
  let l := msg.length
  let zeros := (119 - l % 64) % 64
  msg ++ [128] ++ List.replicate zeros 0 ++
    [8 * l / 72057594037927936 % 256, 8 * l / 281474976710656 % 256,
     8 * l / 1099511627776 % 256, 8 * l / 4294967296 % 256,
     8 * l / 16777216 % 256, 8 * l / 65536 % 256,
     8 * l / 256 % 256, 8 * l % 256]

/-- Split a byte list into 64-byte blocks (`fuel` bounds the recursion; the
callers pass the list length, which always suffices). -/
def blocks64 : Nat → List Nat → List (List Nat)
  | 0, _ => []
  | _, [] => []
  | fuel + 1, l => l.take 64 :: blocks64 fuel (l.drop 64)

/-- SHA-256 of a byte list (FIPS 180-4), modelling the digest produced by
Node's `crypto.createHash('sha256')` used in the SDK `utils.sha256` and by
.NET `SHA256` in `Utils.Sha256`. -/
def sha256Bytes (msg : List Nat) : List Nat :=
  let padded := sha256Pad msg
  let final := (blocks64 (padded.length) padded).foldl sha256Compress
    [1779033703, 3144134277, 1013904242, 2773480762,
     1359893119, 2600822924, 528734635, 1541459225]
  final.flatMap wordToBytesBE

/-- Key pair: raw 32-byte Ed25519 private and public keys, the common shape
of the TypeScript `KeyPair` (part_001) and the C# `KeyPair` (part_008). -/
structure KeyPair where
  privateKey : List Nat
  publicKey : List Nat
deriving DecidableEq, Repr

/-- The first `KeyPair.getAddress` in part_001 (lines 50–52):
`return sha256(this.publicKey)`. -/
def tsLegacyGetAddress (kp : KeyPair) : List Nat :=
  sha256Bytes kp.publicKey

/-- The second `KeyPair.getAddress` in part_001 (lines 196–199):
`return this.publicKey` — "Rust node treats Address as the 32-byte ED25519
public key." -/
def tsGetAddress (kp : KeyPair) : List Nat :=
  kp.publicKey

/-- C# `KeyPair.GetAddress` (part_008 lines 69–72): the raw public key. -/
def csGetAddress (kp : KeyPair) : List Nat :=
  kp.publicKey

/-! ### Helper lemmas -/

theorem foldl_append_eq_flatten (l : List (List Nat)) (acc : List Nat) :
    l.foldl (fun a p => a ++ p) acc = acc ++ l.flatten := by
  induction l generalizing acc with
  | nil => simp
  | cons hd tl ih => simp [List.foldl_cons, ih, List.append_assoc]

theorem csConcatBytes_eq_flatten (l : List (List Nat)) :
    csConcatBytes l = l.flatten := by
  simp [csConcatBytes, foldl_append_eq_flatten]

theorem int_tdiv_coe (m n : Nat) :
    Int.tdiv (m : Int) (n : Int) = ((m / n : Nat) : Int) := rfl

theorem int_fdiv_coe (m n : Nat) :
    Int.fdiv (m : Int) (n : Int) = ((m / n : Nat) : Int) :=
  (Int.ofNat_fdiv m n).symm

theorem u64le_eq_some (v : Int) (h0 : 0 ≤ v) (h1 : v ≤ 18446744073709551615) :
    u64le v = some (u64leBytes v.toNat) := by
  unfold u64le
  rw [if_neg]
  omega

theorem leValue_u64leBytes (n : Nat) (h : n < 18446744073709551616) :
    leValue (u64leBytes n) = n := by
  simp [leValue, u64leBytes]
  omega

/-! ### C10: the u64 little-endian encoder -/

/-- C10: for every bigint `v`, `u64le` returns exactly eight bytes whose
little-endian value is `v` when `0 ≤ v ≤ 2^64 - 1`, and reports an error
(`none`, modelling the thrown range error) when `v` is negative or exceeds
`2^64 - 1`, so an out-of-range amount, fee, gas limit, or nonce can never be
silently encoded into a signing payload. -/
theorem u64le_range_behavior :
    (∀ v : Int, 0 ≤ v → v ≤ 18446744073709551615 →
      ∃ bs, u64le v = some bs ∧ bs.length = 8 ∧ (∀ b ∈ bs, b < 256) ∧
        ((leValue bs : Nat) : Int) = v) ∧
    (∀ v : Int, v < 0 ∨ v > 18446744073709551615 → u64le v = none) := by
  constructor
  · intro v h0 h1
    refine ⟨u64leBytes v.toNat, u64le_eq_some v h0 h1, by simp [u64leBytes], ?_, ?_⟩
    · intro b hb
      simp [u64leBytes] at hb
      rcases hb with h | h | h | h | h | h | h | h <;> omega
    · rw [leValue_u64leBytes v.toNat (by omega)]
      omega
  · intro v h
    unfold u64le
    rw [if_pos h]

/-- Witness for `u64le_range_behavior` at `v = 5` and `v = 2^64`. -/
theorem u64le_range_behavior_witness :
    u64le 5 ≠ none ∧ u64le 18446744073709551616 = none := by
  obtain ⟨bs, hbs, -, -, -⟩ :=
    u64le_range_behavior.1 5 (by decide) (by decide)
  exact ⟨by simp [hbs], u64le_range_behavior.2 _ (by decide)⟩

/-! ### C1: cross-library payload identity -/

/-- C1 (code bug): the TypeScript encoder and the C# encoder disagree on the
canonical Stake payload for the same field values (validator `2…`, amount
5000; the C# transaction additionally carries its `from`, `fee` and `nonce`
fields, which the TypeScript `Stake` type does not even declare).  The
TypeScript payload is 45 bytes, the C# (and Unreal) payload 93 bytes, so the
signing payloads are not byte-for-byte identical. -/
theorem stake_payload_ts_cs_differ :
    tsGetTransactionDataForSigning
        (.stake (List.replicate 32 2) 5000 []) ≠
      some (csStakeSigningData
        ⟨List.replicate 32 1, List.replicate 32 2, 5000, 0, 1, none, none, ""⟩) := by
  decide

/-! ### C2: the Transfer payload layout -/

/-- C2: the canonical Transfer signing payload is exactly the ASCII tag
`"Transfer"`, the raw from and to bytes, then amount, fee and nonce as eight
little-endian bytes each, then chain-id and valid-until-height (eight
little-endian bytes each) in that order, each unset optional field omitted
entirely.  First conjunct: the C# encoder agrees with that layout for every
transfer.  Second conjunct: the TypeScript encoder produces the same layout
(its `TransferTransaction` type declares no chain-binding fields, so both
optional fields are always unset and contribute zero bytes). -/
theorem transfer_payload_canonical :
    (∀ tx : CsTransferTransaction,
      csTransferSigningData tx = specTransferPayload tx) ∧
    (∀ (f t : List Nat) (amount fee nonce : Int) (sig : List Nat),
      0 ≤ amount → amount ≤ 18446744073709551615 →
      0 ≤ fee → fee ≤ 18446744073709551615 →
      0 ≤ nonce → nonce ≤ 18446744073709551615 →
      tsGetTransactionDataForSigning (.transfer f t amount fee nonce sig) =
        some (utf8Bytes "Transfer" ++ f ++ t ++ u64leBytes amount.toNat ++
          u64leBytes fee.toNat ++ u64leBytes nonce.toNat)) := by
  constructor
  · intro tx
    obtain ⟨f, t, a, fe, n, ci, vu, sg⟩ := tx
    cases ci <;> cases vu <;>
      simp [csTransferSigningData, specTransferPayload, csChainFields,
        csConcatBytes, List.append_assoc]
  · intro f t amount fee nonce sig ha0 ha1 hf0 hf1 hn0 hn1
    simp [tsGetTransactionDataForSigning, u64le_eq_some amount ha0 ha1,
      u64le_eq_some fee hf0 hf1, u64le_eq_some nonce hn0 hn1]

/-- Witness for `transfer_payload_canonical` at a concrete transfer. -/
theorem transfer_payload_canonical_witness :
    csTransferSigningData
        ⟨List.replicate 32 1, List.replicate 32 2, 1000, 10, 0, some 7, none, ""⟩ =
      specTransferPayload
        ⟨List.replicate 32 1, List.replicate 32 2, 1000, 10, 0, some 7, none, ""⟩ ∧
    tsGetTransactionDataForSigning
        (.transfer (List.replicate 32 1) (List.replicate 32 2) 1000 10 0 []) =
      some (utf8Bytes "Transfer" ++ List.replicate 32 1 ++ List.replicate 32 2 ++
        u64leBytes 1000 ++ u64leBytes 10 ++ u64leBytes 0) := by
  constructor
  · exact transfer_payload_canonical.1 _
  · have h := transfer_payload_canonical.2 (List.replicate 32 1)
      (List.replicate 32 2) 1000 10 0 [] (by decide) (by decide) (by decide)
      (by decide) (by decide) (by decide)
    simpa using h

/-! ### C3: the ContractCall payload layout -/

/-- C3 (counterexample): the TypeScript ContractCall payload is not the
claimed `tag ++ contract ++ method ++ 0 ++ args` — at a concrete call the
byte after the null terminator is the first gas-limit byte, not the first
argument byte. -/
theorem contractcall_claim_counterexample :
    tsGetTransactionDataForSigning
        (.contractCall (List.replicate 32 2) "x" [170] 1 []) ≠
      some (claimContractCallPayload (List.replicate 32 2) "x" [170]) := by
  decide

/-- C3 (amended): the ContractCall payload appends, after the variant tag
and the contract address, the method-name bytes, a single null terminator,
then the gas limit as eight little-endian bytes, then the raw argument
bytes. -/
theorem contractcall_payload_amended :
    ∀ (contract : List Nat) (method : String) (args : List Nat)
      (gas_limit : Int) (sig : List Nat),
      0 ≤ gas_limit → gas_limit ≤ 18446744073709551615 →
      tsGetTransactionDataForSigning
          (.contractCall contract method args gas_limit sig) =
        some (utf8Bytes "ContractCall" ++ contract ++ utf8Bytes method ++
          [0] ++ u64leBytes gas_limit.toNat ++ args) := by
  intro contract method args gas_limit sig h0 h1
  simp [tsGetTransactionDataForSigning, u64le_eq_some gas_limit h0 h1]

/-- Witness for `contractcall_payload_amended` at a concrete call. -/
theorem contractcall_payload_amended_witness :
    tsGetTransactionDataForSigning
        (.contractCall (List.replicate 32 2) "x" [170] 1 []) =
      some (utf8Bytes "ContractCall" ++ List.replicate 32 2 ++ utf8Bytes "x" ++
        [0] ++ u64leBytes 1 ++ [170]) := by
  have h := contractcall_payload_amended (List.replicate 32 2) "x" [170] 1 []
    (by decide) (by decide)
  simpa using h

/-! ### C4: metadata-dependent Merge/Split payload length -/

theorem unrealHexPairs_length :
    ∀ l : List Char, (unrealHexPairs l).length = l.length / 2
  | [] => rfl
  | [_] => by simp [unrealHexPairs]
  | c1 :: c2 :: rest => by
    simp only [unrealHexPairs, List.length_cons]
    rw [unrealHexPairs_length rest]
    omega

theorem utf16Units_sum_eq_length (l : List Char)
    (h : ∀ c ∈ l, c.toNat < 65536) :
    (l.map utf16Units).sum = l.length := by
  induction l with
  | nil => rfl
  | cons c cs ih =>
    simp only [List.map_cons, List.sum_cons, List.length_cons]
    rw [ih (fun x hx => h x (List.mem_cons_of_mem c hx))]
    have hc : utf16Units c = 1 := by
      simp [utf16Units, h c (List.mem_cons_self c cs)]
    omega

theorem utf16Units_le_utf8_length (c : Char) :
    utf16Units c ≤ (utf8EncodeCharNat c).length := by
  simp only [utf16Units, utf8EncodeCharNat]
  split_ifs
  all_goals simp_all
  all_goals omega

theorem utf16Len_le_utf8Bytes_length (s : String) :
    utf16Len s ≤ (utf8Bytes s).length := by
  unfold utf16Len utf8Bytes
  rw [List.length_flatMap]
  exact List.sum_le_sum (fun c _ => utf16Units_le_utf8_length c)

theorem utf16_utf8_ascii (l : List Char) (h : ∀ c ∈ l, c.toNat < 128) :
    (l.map utf16Units).sum = (l.flatMap utf8EncodeCharNat).length := by
  induction l with
  | nil => rfl
  | cons c cs ih =>
    have hc : c.toNat < 128 := h c (List.mem_cons_self c cs)
    simp only [List.map_cons, List.sum_cons, List.flatMap_cons,
      List.length_append]
    rw [ih (fun x hx => h x (List.mem_cons_of_mem c hx))]
    have h1 : utf16Units c = 1 := by simp [utf16Units]; omega
    have h2 : (utf8EncodeCharNat c).length = 1 := by
      simp [utf8EncodeCharNat, hc]
    omega

/-- C4 (counterexample): the Unreal
`FTransactionSigning::BuildMistbornAssetPayload` cited by the claim appends
only `Components->Len()` bytes of the `_components` string, so for the
non-ASCII one-character string `"é"` (one TCHAR, two UTF-8 bytes) the Split
payload is longer by 1 byte, not by the string's byte length 2 — the claim
as stated fails at this concrete input. -/
theorem mistborn_split_unreal_counterexample :
    (unrealBuildMistbornAssetPayload (List.replicate 32 1) AssetAction.Split
        (List.replicate 32 10) (List.replicate 32 1) DensityLevel.Ethereal
        0 0 [("_components", "é")] none none).length ≠
      (unrealBuildMistbornAssetPayload (List.replicate 32 1) AssetAction.Split
        (List.replicate 32 10) (List.replicate 32 1) DensityLevel.Ethereal
        0 0 [] none none).length + (utf8Bytes "é").length := by
  decide

/-- C4 (amended): for a Merge whose `_other_asset_id` metadata entry holds
the 64-character hex form of a 32-byte asset id, both the C# and the Unreal
MistbornAsset payloads are exactly 32 bytes longer than the payload of the
same transaction without that entry; for a Split with `_components`
present, the C# payload is longer by exactly the UTF-8 byte length of the
comma-joined component string, and the Unreal payload by its TCHAR count
(`Len()`), which equals the byte length exactly when the string is ASCII
(as comma-joined hex component ids are); with the entry absent the extra
field is omitted entirely (not zero-filled). -/
theorem mistborn_merge_split_metadata_length :
    (∀ (tx : CsMistbornAssetTransaction) (m2 : List (String × String))
       (h : String) (bs : List Nat),
      tx.action = AssetAction.Merge →
      tx.data.metadata.lookup "_other_asset_id" = some h →
      csHexToBytes h = some bs → bs.length = 32 →
      m2.lookup "_other_asset_id" = none →
      ∃ p1 p2, csMistbornSigningData tx = some p1 ∧
        csMistbornSigningData { tx with data := { tx.data with metadata := m2 } } = some p2 ∧
        p1.length = p2.length + 32) ∧
    (∀ (tx : CsMistbornAssetTransaction) (m2 : List (String × String))
       (s : String),
      tx.action = AssetAction.Split →
      tx.data.metadata.lookup "_components" = some s →
      m2.lookup "_components" = none →
      ∃ p1 p2, csMistbornSigningData tx = some p1 ∧
        csMistbornSigningData { tx with data := { tx.data with metadata := m2 } } = some p2 ∧
        p1.length = p2.length + (utf8Bytes s).length) ∧
    (∀ (fromAddress assetId dataOwner : List Nat) (density : DensityLevel)
       (fee nonce : Nat) (m1 m2 : List (String × String))
       (chainId validUntilHeight : Option Nat) (hexStr : String),
      m1.lookup "_other_asset_id" = some hexStr →
      hexStr.data.length = 64 →
      (∀ c ∈ hexStr.data, c.toNat < 65536) →
      m2.lookup "_other_asset_id" = none →
      (unrealBuildMistbornAssetPayload fromAddress AssetAction.Merge assetId
        dataOwner density fee nonce m1 chainId validUntilHeight).length =
      (unrealBuildMistbornAssetPayload fromAddress AssetAction.Merge assetId
        dataOwner density fee nonce m2 chainId validUntilHeight).length + 32) ∧
    (∀ (fromAddress assetId dataOwner : List Nat) (density : DensityLevel)
       (fee nonce : Nat) (m1 m2 : List (String × String))
       (chainId validUntilHeight : Option Nat) (s : String),
      m1.lookup "_components" = some s →
      m2.lookup "_components" = none →
      (unrealBuildMistbornAssetPayload fromAddress AssetAction.Split assetId
        dataOwner density fee nonce m1 chainId validUntilHeight).length =
      (unrealBuildMistbornAssetPayload fromAddress AssetAction.Split assetId
        dataOwner density fee nonce m2 chainId validUntilHeight).length +
        utf16Len s) ∧
    (∀ s : String, (∀ c ∈ s.data, c.toNat < 128) →
      utf16Len s = (utf8Bytes s).length) := by
  refine ⟨?_, ?_, ?_, ?_, ?_⟩
  · intro tx m2 h bs haction hlookup hhex hlen hm2
    have e1 : csMergeExtra tx = some [bs] := by
      simp [csMergeExtra, haction, hlookup, hhex, hlen]
    have e2 : csMergeExtra { tx with data := { tx.data with metadata := m2 } } = some [] := by
      simp [csMergeExtra, haction, hm2]
    unfold csMistbornSigningData
    rw [e1, e2]
    simp only [Option.map_some]
    refine ⟨_, _, rfl, rfl, ?_⟩
    simp [csConcatBytes_eq_flatten, List.length_flatten, csSplitExtra,
      haction, hlen]
    omega
  · intro tx m2 s haction hlookup hm2
    have e1 : csMergeExtra tx = some [] := by
      simp [csMergeExtra, haction]
    have e2 : csMergeExtra { tx with data := { tx.data with metadata := m2 } } = some [] := by
      simp [csMergeExtra, haction]
    unfold csMistbornSigningData
    rw [e1, e2]
    simp only [Option.map_some]
    refine ⟨_, _, rfl, rfl, ?_⟩
    simp [csConcatBytes_eq_flatten, List.length_flatten, csSplitExtra,
      haction, hlookup, hm2]
    omega
  · intro fromAddress assetId dataOwner density fee nonce m1 m2 chainId
      validUntilHeight hexStr hm1 hlen hbmp hm2
    have hu : utf16Len hexStr = 64 := by
      unfold utf16Len
      rw [utf16Units_sum_eq_length hexStr.data hbmp, hlen]
    simp [unrealBuildMistbornAssetPayload, hm1, hm2, hu,
      unrealHexPairs_length, List.length_take, hlen]
    omega
  · intro fromAddress assetId dataOwner density fee nonce m1 m2 chainId
      validUntilHeight s hm1 hm2
    simp [unrealBuildMistbornAssetPayload, hm1, hm2, List.length_take,
      min_eq_left (utf16Len_le_utf8Bytes_length s)]
    omega
  · intro s h
    unfold utf16Len utf8Bytes
    exact utf16_utf8_ascii s.data h

/-- Witness for `mistborn_merge_split_metadata_length` at concrete Merge
and Split transactions (the Merge metadata holds the 64-character hex form
of a 32-byte id; the Split metadata a comma-joined ASCII component list). -/
theorem mistborn_merge_split_metadata_length_witness :
    (∃ p1 p2,
      csMistbornSigningData
          ⟨List.replicate 32 1, AssetAction.Merge, List.replicate 32 10,
           ⟨DensityLevel.Ethereal,
            [("_other_asset_id",
              "6363636363636363636363636363636363636363636363636363636363636363")],
            [], none, List.replicate 32 1⟩, 0, 0, none, none, ""⟩ = some p1 ∧
      csMistbornSigningData
          ⟨List.replicate 32 1, AssetAction.Merge, List.replicate 32 10,
           ⟨DensityLevel.Ethereal, [], [], none, List.replicate 32 1⟩,
           0, 0, none, none, ""⟩ = some p2 ∧
      p1.length = p2.length + 32) ∧
    (∃ p1 p2,
      csMistbornSigningData
          ⟨List.replicate 32 1, AssetAction.Split, List.replicate 32 10,
           ⟨DensityLevel.Ethereal, [("_components", "id1,id2")],
            [], none, List.replicate 32 1⟩, 0, 0, none, none, ""⟩ = some p1 ∧
      csMistbornSigningData
          ⟨List.replicate 32 1, AssetAction.Split, List.replicate 32 10,
           ⟨DensityLevel.Ethereal, [], [], none, List.replicate 32 1⟩,
           0, 0, none, none, ""⟩ = some p2 ∧
      p1.length = p2.length + (utf8Bytes "id1,id2").length) ∧
    (unrealBuildMistbornAssetPayload (List.replicate 32 1) AssetAction.Merge
        (List.replicate 32 10) (List.replicate 32 1) DensityLevel.Ethereal
        0 0 [("_other_asset_id",
          "6363636363636363636363636363636363636363636363636363636363636363")]
        none none).length =
      (unrealBuildMistbornAssetPayload (List.replicate 32 1) AssetAction.Merge
        (List.replicate 32 10) (List.replicate 32 1) DensityLevel.Ethereal
        0 0 [] none none).length + 32 ∧
    (unrealBuildMistbornAssetPayload (List.replicate 32 1) AssetAction.Split
        (List.replicate 32 10) (List.replicate 32 1) DensityLevel.Ethereal
        0 0 [("_components", "id1,id2")] none none).length =
      (unrealBuildMistbornAssetPayload (List.replicate 32 1) AssetAction.Split
        (List.replicate 32 10) (List.replicate 32 1) DensityLevel.Ethereal
        0 0 [] none none).length + utf16Len "id1,id2" := by
  refine ⟨?_, ?_, ?_, ?_⟩
  · exact mistborn_merge_split_metadata_length.1
      ⟨List.replicate 32 1, AssetAction.Merge, List.replicate 32 10,
       ⟨DensityLevel.Ethereal,
        [("_other_asset_id",
          "6363636363636363636363636363636363636363636363636363636363636363")],
        [], none, List.replicate 32 1⟩, 0, 0, none, none, ""⟩
      [] "6363636363636363636363636363636363636363636363636363636363636363"
      (List.replicate 32 99) rfl (by decide) (by decide) (by decide) (by decide)
  · exact mistborn_merge_split_metadata_length.2.1
      ⟨List.replicate 32 1, AssetAction.Split, List.replicate 32 10,
       ⟨DensityLevel.Ethereal, [("_components", "id1,id2")],
        [], none, List.replicate 32 1⟩, 0, 0, none, none, ""⟩
      [] "id1,id2" rfl (by decide) (by decide)
  · exact mistborn_merge_split_metadata_length.2.2.1
      (List.replicate 32 1) (List.replicate 32 10) (List.replicate 32 1)
      DensityLevel.Ethereal 0 0
      [("_other_asset_id",
        "6363636363636363636363636363636363636363636363636363636363636363")]
      [] none none
      "6363636363636363636363636363636363636363636363636363636363636363"
      (by decide) (by decide) (by decide) (by decide)
  · exact mistborn_merge_split_metadata_length.2.2.2.1
      (List.replicate 32 1) (List.replicate 32 10) (List.replicate 32 1)
      DensityLevel.Ethereal 0 0 [("_components", "id1,id2")] [] none none
      "id1,id2" (by decide) (by decide)

/-! ### SHA-256 model validation against the FIPS 180-4 test vectors -/

/-- The SHA-256 model reproduces the standard digest of the empty message. -/
theorem sha256Bytes_empty_vector :
    sha256Bytes [] =
      [227, 176, 196, 66, 152, 252, 28, 20, 154, 251, 244, 200,
       153, 111, 185, 36, 39, 174, 65, 228, 100, 155, 147, 76,
       164, 149, 153, 27, 120, 82, 184, 85] := by
  decide

/-- The SHA-256 model reproduces the standard digest of `"abc"`. -/
theorem sha256Bytes_abc_vector :
    sha256Bytes (utf8Bytes "abc") =
      [186, 120, 22, 191, 143, 1, 207, 234, 65, 65, 64, 222,
       93, 174, 34, 35, 176, 3, 97, 163, 150, 23, 122, 156,
       180, 16, 255, 97, 242, 0, 21, 173] := by
  decide

/-! ### C7: address derivation -/

/-- C7 (code bug in the first part_001 `KeyPair.getAddress`): the second
TypeScript `KeyPair.getAddress` and the C# `KeyPair.GetAddress` return the
raw 32-byte public key itself, but the first (legacy) TypeScript
`KeyPair.getAddress` (part_001 lines 50–52) instead returns the SHA-256
digest of the public key — evaluated here at the all-zero 32-byte key, where
the digest differs from the key. -/
theorem getAddress_raw_public_key :
    tsLegacyGetAddress ⟨List.replicate 32 0, List.replicate 32 0⟩ ≠
      List.replicate 32 0 ∧
    (∀ kp : KeyPair, tsGetAddress kp = kp.publicKey) ∧
    (∀ kp : KeyPair, csGetAddress kp = kp.publicKey) :=
  ⟨by decide, fun _ => rfl, fun _ => rfl⟩

/-! ### C8: hex decoding of malformed input -/

theorem csHexPairs_badchar :
    ∀ l : List Char, (∃ c ∈ l, hexDigitVal c = none) → csHexPairs l = none
  | [], h => by simp at h
  | [c], _ => rfl
  | c1 :: c2 :: rest, ⟨c, hc, hcnone⟩ => by
    simp only [csHexPairs]
    cases h1 : hexDigitVal c1 with
    | none => rfl
    | some hi =>
      cases h2 : hexDigitVal c2 with
      | none => rfl
      | some lo =>
        have hcr : c ∈ rest := by
          rcases List.mem_cons.mp hc with rfl | hc'
          · rw [h1] at hcnone; exact absurd hcnone (by simp)
          · rcases List.mem_cons.mp hc' with rfl | hc''
            · rw [h2] at hcnone; exact absurd hcnone (by simp)
            · exact hc''
        rw [csHexPairs_badchar rest ⟨c, hcr, hcnone⟩]
        rfl

theorem tsHexPairs_dropLast :
    ∀ l : List Char, l.length % 2 = 1 → tsHexPairs l = tsHexPairs l.dropLast
  | [], h => by simp at h
  | [_], _ => rfl
  | c1 :: c2 :: rest, h => by
    have hr : rest.length % 2 = 1 := by
      simp only [List.length_cons] at h
      omega
    match rest, hr with
    | r :: rs, hr =>
      show tsHexPairs (c1 :: c2 :: r :: rs) =
        tsHexPairs (c1 :: c2 :: (r :: rs).dropLast)
      simp only [tsHexPairs]
      cases hexDigitVal c1 <;> cases hexDigitVal c2 <;>
        simp [tsHexPairs_dropLast (r :: rs) hr]

/-- C8 (counterexample): on the odd-length input `"abc"` the TypeScript
`hexToBytes` and the Unreal `FTransactionBuilder::HexToBytes` do not report
an error — each silently coerces it into the byte array `[171]`; on a
non-hex digit Unreal decodes the nibble 0 (so `"0z"` becomes the single
byte `[0]`) and TypeScript stops and returns what it decoded so far. -/
theorem hex_decoders_silently_coerce :
    tsHexToBytes "abc" = [171] ∧ unrealHexToBytes "abc" = [171] ∧
    unrealHexToBytes "0z" = [0] ∧ tsHexToBytes "ab0zcd" = [171] := by
  decide

/-- C8 (amended): only the C# `Utils.HexToBytes` rejects odd-length or
non-hex input with a reported error; the TypeScript and Unreal decoders
never report one — TypeScript ignores a trailing odd character (and stops at
the first non-hex pair), and Unreal always returns one byte per cleaned
character pair, dropping a trailing odd character and decoding a non-hex
digit as the nibble 0 (so `"0z"` yields `[0x00]`). -/
theorem hex_decoding_error_reporting :
    (∀ s : String, s.length % 2 = 1 → csHexToBytes s = none) ∧
    (∀ s : String, (∃ c ∈ s.data, hexDigitVal c = none) →
      csHexToBytes s = none) ∧
    (∀ s : String, s.length % 2 = 1 →
      tsHexToBytes s = tsHexPairs s.data.dropLast) ∧
    (∀ s : String, (unrealHexToBytes s).length = (unrealClean s).length / 2) ∧
    unrealHexToBytes "abc" = [171] ∧
    unrealHexToBytes "0z" = [0] := by
  refine ⟨?_, ?_, ?_, fun s => unrealHexPairs_length (unrealClean s),
    by decide, by decide⟩
  · intro s h
    unfold csHexToBytes
    rw [if_pos (by omega)]
  · intro s h
    by_cases hpar : s.length % 2 = 1
    · unfold csHexToBytes
      rw [if_pos (by omega)]
    · unfold csHexToBytes
      rw [if_neg (by omega)]
      exact csHexPairs_badchar s.data h
  · intro s h
    exact tsHexPairs_dropLast s.data h

/-- Witness for `hex_decoding_error_reporting` at `"abc"` (odd length) and
`"zz"` (non-hex characters). -/
theorem hex_decoding_error_reporting_witness :
    csHexToBytes "abc" = none ∧ csHexToBytes "zz" = none ∧
    tsHexToBytes "abc" = tsHexPairs "abc".data.dropLast := by
  refine ⟨hex_decoding_error_reporting.1 "abc" (by decide),
    hex_decoding_error_reporting.2.1 "zz" ⟨'z', by decide, by decide⟩,
    hex_decoding_error_reporting.2.2.1 "abc" (by decide)⟩

/-! ### C5: the swap quote -/

theorem swap_tdiv_eq_fdiv (a b i f : Nat) (ha : 0 < a) :
    ((b : Int) - Int.tdiv ((a : Int) * (b : Int)) ((a : Int) + (i : Int))) -
      Int.tdiv (((b : Int) -
        Int.tdiv ((a : Int) * (b : Int)) ((a : Int) + (i : Int))) * (f : Int))
        10000 =
    ((b : Int) - Int.fdiv ((a : Int) * (b : Int)) ((a : Int) + (i : Int))) -
      Int.fdiv (((b : Int) -
        Int.fdiv ((a : Int) * (b : Int)) ((a : Int) + (i : Int))) * (f : Int))
        10000 := by
  have hq : a * b / (a + i) ≤ b := by
    calc a * b / (a + i) ≤ a * b / a :=
          Nat.div_le_div_left (Nat.le_add_right a i) ha
      _ = b := Nat.mul_div_cancel_left b ha
  have h1 : Int.tdiv ((a : Int) * (b : Int)) ((a : Int) + (i : Int)) =
      ((a * b / (a + i) : Nat) : Int) := by
    rw [← Nat.cast_mul, ← Nat.cast_add, int_tdiv_coe]
  have h2 : Int.fdiv ((a : Int) * (b : Int)) ((a : Int) + (i : Int)) =
      ((a * b / (a + i) : Nat) : Int) := by
    rw [← Nat.cast_mul, ← Nat.cast_add, int_fdiv_coe]
  rw [h1, h2]
  have hout : (b : Int) - ((a * b / (a + i) : Nat) : Int) =
      ((b - a * b / (a + i) : Nat) : Int) := by
    rw [Nat.cast_sub hq]
  rw [hout]
  congr 1
  rw [← Nat.cast_mul, show (10000 : Int) = ((10000 : Nat) : Int) from rfl,
    int_tdiv_coe, int_fdiv_coe]

/-- C5: for every pool with positive reserves and every swap input (a
non-negative unsigned amount, per the spec's data model) and the pool's
non-negative fee-rate basis-point value, `calculateSwapAmount` computes exactly
`(oldReserveB - floor(k / (oldReserveA + input))) - floor(rawOutput *
feeRateBps / 10000)` with `k = reserve1 * reserve2` in unbounded integers
and the division applied before the fee; in particular, on the pool
(10000, 20000, 30 bps) an input of 1000 on asset1 yields 1814 and an input
of 1000 on asset2 yields 476. -/
theorem calculateSwapAmount_floor_formula :
    (∀ (pool : LiquidityPool) (inputAmount : Int) (isAsset1Input : Bool),
      0 < pool.reserve1 → 0 < pool.reserve2 → 0 ≤ inputAmount →
      0 ≤ pool.fee_rate →
      calculateSwapAmount pool inputAmount isAsset1Input =
        specSwapFloor pool inputAmount isAsset1Input) ∧
    calculateSwapAmount examplePool 1000 true = 1814 ∧
    calculateSwapAmount examplePool 1000 false = 476 := by
  refine ⟨?_, by decide, by decide⟩
  intro pool inputAmount isAsset1Input h1 h2 h3 h4
  obtain ⟨a, ha⟩ := Int.eq_ofNat_of_zero_le h1.le
  obtain ⟨b, hb⟩ := Int.eq_ofNat_of_zero_le h2.le
  obtain ⟨i, hi⟩ := Int.eq_ofNat_of_zero_le h3
  obtain ⟨f, hf⟩ := Int.eq_ofNat_of_zero_le h4
  have ha0 : 0 < a := by omega
  have hb0 : 0 < b := by omega
  cases isAsset1Input with
  | true =>
    simp only [calculateSwapAmount, specSwapFloor, if_pos, ha, hb, hi, hf]
    exact swap_tdiv_eq_fdiv a b i f ha0
  | false =>
    simp only [calculateSwapAmount, specSwapFloor, if_neg, ha, hb, hi, hf]
    rw [mul_comm ((a : Int)) ((b : Int))]
    exact swap_tdiv_eq_fdiv b a i f hb0

/-- Witness for `calculateSwapAmount_floor_formula` on the example pool. -/
theorem calculateSwapAmount_floor_formula_witness :
    calculateSwapAmount examplePool 1000 true =
      specSwapFloor examplePool 1000 true ∧
    specSwapFloor examplePool 1000 true = 1814 := by
  exact ⟨calculateSwapAmount_floor_formula.1 examplePool 1000 true (by decide)
    (by decide) (by decide) (by decide), by decide⟩

/-! ### Newton iteration (geometricMean) correctness -/

theorem gmAux_eq_gmAuxN (p : Nat) :
    ∀ (fuel : Nat) (x y : Nat),
      gmAux (p : Int) fuel (x : Int) (y : Int) =
        (gmAuxN p fuel x y).map (fun n => (n : Int)) := by
  intro fuel
  induction fuel with
  | zero => intro x y; rfl
  | succ n ih =>
    intro x y
    simp only [gmAux, gmAuxN]
    by_cases h : y < x
    · rw [if_pos (by exact_mod_cast h), if_pos h]
      have hstep : Int.tdiv ((y : Int) + Int.tdiv (p : Int) (y : Int)) 2 =
          (((y + p / y) / 2 : Nat) : Int) := by
        rw [int_tdiv_coe, ← Nat.cast_add,
          show (2 : Int) = ((2 : Nat) : Int) from rfl, int_tdiv_coe]
      rw [hstep]
      exact ih y ((y + p / y) / 2)
    · rw [if_neg (by exact_mod_cast h), if_neg h]
      rfl

theorem sqrt_le_newton_step (p x : Nat) (hx : 0 < x) :
    Nat.sqrt p ≤ (x + p / x) / 2 := by
  rw [Nat.le_div_iff_mul_le (by norm_num : 0 < 2)]
  by_cases h : 2 * Nat.sqrt p ≤ x
  · have := Nat.le_add_right x (p / x)
    omega
  · push_neg at h
    have hsub : (2 * Nat.sqrt p - x) * x ≤ Nat.sqrt p * Nat.sqrt p := by
      zify [h.le]
      nlinarith [sq_nonneg ((Nat.sqrt p : Int) - (x : Int))]
    have h2 : (2 * Nat.sqrt p - x) * x ≤ p := le_trans hsub (Nat.sqrt_le p)
    have h4 : 2 * Nat.sqrt p - x ≤ p / x := (Nat.le_div_iff_mul_le hx).mpr h2
    omega

theorem newton_step_exit (p x : Nat) (hx : 0 < x)
    (h : x ≤ (x + p / x) / 2) : x * x ≤ p := by
  rw [Nat.le_div_iff_mul_le (by norm_num : 0 < 2)] at h
  have : x ≤ p / x := by omega
  exact (Nat.le_div_iff_mul_le hx).mp this

theorem gmAuxN_correct (p : Nat) (hp : 0 < p) :
    ∀ (fuel x : Nat), Nat.sqrt p ≤ x → x < fuel →
      gmAuxN p fuel x ((x + p / x) / 2) = some (Nat.sqrt p) := by
  intro fuel
  induction fuel with
  | zero => intro x _ h; omega
  | succ n ih =>
    intro x hsx hxf
    have hx : 0 < x := lt_of_lt_of_le (Nat.sqrt_pos.mpr hp) hsx
    simp only [gmAuxN]
    by_cases h : (x + p / x) / 2 < x
    · rw [if_pos h]
      exact ih ((x + p / x) / 2) (sqrt_le_newton_step p x hx) (by omega)
    · rw [if_neg h]
      push_neg at h
      have h2 : x ≤ Nat.sqrt p :=
        Nat.le_sqrt.mpr (newton_step_exit p x hx h)
      rw [le_antisymm h2 hsx]

theorem gmAuxN_main (p fuel : Nat) (h : p < fuel) :
    gmAuxN p fuel p ((p + 1) / 2) = some (Nat.sqrt p) := by
  obtain ⟨n, rfl⟩ : ∃ n, fuel = n + 1 := ⟨fuel - 1, by omega⟩
  by_cases hp2 : p < 2
  · interval_cases p
    · rfl
    · rfl
  · push_neg at hp2
    simp only [gmAuxN]
    rw [if_pos (by omega : (p + 1) / 2 < p)]
    have hhalf : p / ((p + 1) / 2) / 1 = p / ((p + 1) / 2) := Nat.div_one _
    have hentry : Nat.sqrt p ≤ (p + 1) / 2 := by
      rw [Nat.le_div_iff_mul_le (by norm_num : 0 < 2)]
      have h1 : Nat.sqrt p * Nat.sqrt p ≤ p := Nat.sqrt_le p
      nlinarith [sq_nonneg ((Nat.sqrt p : Int) - 1)]
    have hfits : (p + 1) / 2 < n := by omega
    have := gmAuxN_correct p (by omega) n ((p + 1) / 2) hentry hfits
    exact this

theorem geometricMean_eq_sqrt (a b : Int) (ha : 0 ≤ a) (hb : 0 ≤ b)
    (fuel : Nat) (hf : (a * b).toNat < fuel) :
    geometricMean a b fuel = some ((Nat.sqrt ((a * b).toNat) : Nat) : Int) := by
  obtain ⟨m, rfl⟩ := Int.eq_ofNat_of_zero_le ha
  obtain ⟨n, rfl⟩ := Int.eq_ofNat_of_zero_le hb
  have hprod : ((m : Int)) * ((n : Int)) = ((m * n : Nat) : Int) := by
    push_cast; ring
  simp only [geometricMean]
  rw [hprod]
  have hentry : Int.tdiv (((m * n : Nat) : Int) + 1) 2 =
      (((m * n + 1) / 2 : Nat) : Int) := by
    rw [show (((m * n : Nat) : Int) + 1) = ((m * n + 1 : Nat) : Int) by push_cast; ring,
      show (2 : Int) = ((2 : Nat) : Int) from rfl, int_tdiv_coe]
  rw [hentry, gmAux_eq_gmAuxN]
  have hfn : m * n < fuel := by
    have : ((m : Int) * (n : Int)).toNat = m * n := by
      rw [hprod]; exact Int.toNat_natCast _
    omega
  rw [gmAuxN_main (m * n) fuel hfn]
  simp [Int.toNat_natCast]
  rw [hprod, Int.toNat_natCast]

/-! ### C6: liquidity shares -/

/-- C6: when the pool's total liquidity is zero, `calculateLiquidityShares`
returns the integer square root (floor of the exact square root) of
`amount1 * amount2` (amounts are unsigned values per the data model, hence
the non-negativity hypotheses; `fuel` bounds the embedded Newton loop, which
terminates, so any fuel above the product suffices); otherwise it returns
`min(floor(amount1 * totalLiquidity / reserve1), floor(amount2 *
totalLiquidity / reserve2))` with each division truncated independently
before the minimum, reserves positive and the pool's liquidity non-negative
per the data-model invariants. -/
theorem calculateLiquidityShares_formula :
    (∀ (fuel : Nat) (pool : LiquidityPool) (a1 a2 : Int),
      pool.total_liquidity = 0 → 0 ≤ a1 → 0 ≤ a2 →
      (a1 * a2).toNat < fuel →
      calculateLiquidityShares fuel pool a1 a2 =
        some ((Nat.sqrt ((a1 * a2).toNat) : Nat) : Int)) ∧
    (∀ (fuel : Nat) (pool : LiquidityPool) (a1 a2 : Int),
      pool.total_liquidity ≠ 0 → 0 ≤ pool.total_liquidity →
      0 < pool.reserve1 → 0 < pool.reserve2 → 0 ≤ a1 → 0 ≤ a2 →
      calculateLiquidityShares fuel pool a1 a2 =
        some (min (Int.fdiv (a1 * pool.total_liquidity) pool.reserve1)
                  (Int.fdiv (a2 * pool.total_liquidity) pool.reserve2))) := by
  constructor
  · intro fuel pool a1 a2 htl h1 h2 hf
    unfold calculateLiquidityShares
    rw [if_pos htl]
    exact geometricMean_eq_sqrt a1 a2 h1 h2 fuel hf
  · intro fuel pool a1 a2 htl htl0 hr1 hr2 h1 h2
    unfold calculateLiquidityShares
    rw [if_neg htl]
    obtain ⟨t, ht⟩ := Int.eq_ofNat_of_zero_le htl0
    obtain ⟨r1, hr1e⟩ := Int.eq_ofNat_of_zero_le hr1.le
    obtain ⟨r2, hr2e⟩ := Int.eq_ofNat_of_zero_le hr2.le
    obtain ⟨m1, hm1⟩ := Int.eq_ofNat_of_zero_le h1
    obtain ⟨m2, hm2⟩ := Int.eq_ofNat_of_zero_le h2
    have e1 : Int.tdiv (a1 * pool.total_liquidity) pool.reserve1 =
        Int.fdiv (a1 * pool.total_liquidity) pool.reserve1 := by
      rw [hm1, ht, hr1e, ← Nat.cast_mul, int_tdiv_coe, int_fdiv_coe]
    have e2 : Int.tdiv (a2 * pool.total_liquidity) pool.reserve2 =
        Int.fdiv (a2 * pool.total_liquidity) pool.reserve2 := by
      rw [hm2, ht, hr2e, ← Nat.cast_mul, int_tdiv_coe, int_fdiv_coe]
    simp only [e1, e2]
    by_cases h : Int.fdiv (a1 * pool.total_liquidity) pool.reserve1 <
        Int.fdiv (a2 * pool.total_liquidity) pool.reserve2
    · rw [if_pos h, min_eq_left h.le]
    · rw [if_neg h, min_eq_right (not_lt.mp h)]

/-- Witness for `calculateLiquidityShares_formula`: depositing
(10000, 20000) into the empty example pool yields `isqrt(200000000) =
14142` shares, and a proportional deposit into a non-empty pool yields the
minimum share. -/
theorem calculateLiquidityShares_formula_witness :
    calculateLiquidityShares 200000001 examplePool 10000 20000 =
      some 14142 ∧
    calculateLiquidityShares 1
        ⟨"p", "a", "b", 2, 3, 0, 5⟩ 1 1 =
      some (min (Int.fdiv 5 2) (Int.fdiv 5 3)) := by
  constructor
  · have h := calculateLiquidityShares_formula.1 200000001 examplePool
      10000 20000 rfl (by decide) (by decide) (by decide)
    have hs : Nat.sqrt 200000000 = 14142 := by
      have h1 : 14142 ≤ Nat.sqrt 200000000 :=
        Nat.le_sqrt.mpr (by norm_num)
      have h2 : Nat.sqrt 200000000 < 14143 :=
        Nat.sqrt_lt.mpr (by norm_num)
      omega
    rw [h, show ((10000 : Int) * 20000).toNat = 200000000 from by decide, hs]
    norm_num
  · have h := calculateLiquidityShares_formula.2 1
      ⟨"p", "a", "b", 2, 3, 0, 5⟩ 1 1 (by decide) (by decide) (by decide)
      (by decide) (by decide) (by decide)
    simpa using h

/-! ### C9: termination of the Newton loop -/

/-- C9: for every pair of non-negative big-integer inputs the Newton
while-loop in `geometricMean` terminates — every fuel above the product
already yields the loop's value (the iterate strictly decreases each step) —
so `calculateLiquidityShares` is total on every first-deposit input. -/
theorem geometricMean_terminates :
    ∀ (a b : Int), 0 ≤ a → 0 ≤ b → ∀ fuel : Nat, (a * b).toNat < fuel →
      (∃ r, geometricMean a b fuel = some r) ∧
      (∀ pool : LiquidityPool, pool.total_liquidity = 0 →
        ∃ r, calculateLiquidityShares fuel pool a b = some r) := by
  intro a b ha hb fuel hf
  refine ⟨⟨_, geometricMean_eq_sqrt a b ha hb fuel hf⟩, ?_⟩
  intro pool htl
  refine ⟨((Nat.sqrt ((a * b).toNat) : Nat) : Int), ?_⟩
  unfold calculateLiquidityShares
  rw [if_pos htl]
  exact geometricMean_eq_sqrt a b ha hb fuel hf

/-- Witness for `geometricMean_terminates` at `a = 3`, `b = 12`. -/
theorem geometricMean_terminates_witness :
    ∃ r, geometricMean 3 12 37 = some r :=
  (geometricMean_terminates 3 12 (by decide) (by decide) 37 (by decide)).1
